import Mathlib

/-!
Shallow embedding of the pyserini ranking repository: the three ranker
classes of rankers.py (PivotedLengthNormalizationRanker, BM25Ranker,
CustomRanker) with their per-instance memo caches, and the query
evaluation glue of main.py (rank_query and the descending stable sort of
document ids by score).

Document vectors, term-position maps and the memo caches are modelled as
association lists; real-valued scoring uses `Real.log` for `np.log`.
-/

/-- Association-list lookup: the first pair whose key matches, mirroring a
Python dict lookup (dict keys are unique, so the first match is the match). -/
def lookupKey {α β : Type} [DecidableEq α] : List (α × β) → α → Option β
  | [], _ => none
  | p :: ps, k => if p.1 = k then some p.2 else lookupKey ps k

/-- Python dict assignment `m[k] = v`: overwrite in place if the key exists,
otherwise append (Python dicts preserve insertion order). -/
def dictInsert {α β : Type} [DecidableEq α] (m : List (α × β)) (k : α) (v : β) :
    List (α × β) :=
  if (lookupKey m k).isSome then m.map (fun p => if p.1 = k then (k, v) else p)
  else m ++ [(k, v)]

/-- A document vector: term → raw term frequency, as returned by
`index_reader.get_document_vector`. -/
abbrev DocVector := List (String × Nat)

/-- Term positions for one document: term → list of token offsets, as
returned by `index_reader.get_term_positions`. -/
abbrev TermPositions := List (String × List Nat)

/-- The `freq_cache` of a ranker: term → (document frequency, collection
frequency). -/
abbrev FreqCache := List (String × (Nat × Nat))

/-- The external pyserini `IndexReader`: collection statistics plus the
per-document and per-term lookups the rankers consume. -/
structure IndexReader where
  nDocs : Nat
  totalTerms : Nat
  docVec : String → DocVector
  termCounts : String → Nat × Nat
  termPos : String → TermPositions

/-- `doc_length = sum(doc_vector.values())`. -/
def docLength (dv : DocVector) : Nat := (dv.map Prod.snd).sum

/-- `self.avg_dl = self.stats['total_terms'] / self.n_docs`. -/
noncomputable def avgDl (r : IndexReader) : ℝ := (r.totalTerms : ℝ) / (r.nDocs : ℝ)

/-- `doc_query_set = set(query).intersection(doc_vector.keys())`, listed in
first-occurrence order of the query (the loop sums over this set, so the
iteration order never affects the score). -/
def termsIn (q : List String) (dv : DocVector) : List String :=
  q.dedup.filter (fun t => (lookupKey dv t).isSome)

/-- The mutable caches a ranker instance carries: `docvec_cache`,
`positions_cache` (CustomRanker only) and `freq_cache`. -/
structure RankerState where
  docvecCache : List (String × DocVector)
  posCache : List (String × TermPositions)
  freqCache : FreqCache

/-- A freshly constructed ranker: all caches empty. -/
def RankerState.empty : RankerState := ⟨[], [], []⟩

/-- The `docvec_cache` check at the top of every `score` method: on a miss,
fetch from the reader and append to the cache.  The third component is the
list of doc ids fetched from the underlying reader by this call. -/
def getDocVectorCached (r : IndexReader) (st : RankerState) (d : String) :
    DocVector × RankerState × List String :=
  match lookupKey st.docvecCache d with
  | some dv => (dv, st, [])
  | none => (r.docVec d, ⟨st.docvecCache ++ [(d, r.docVec d)], st.posCache, st.freqCache⟩, [d])

/-- The `positions_cache` check in `CustomRanker.score`. -/
def getTermPosCached (r : IndexReader) (st : RankerState) (d : String) :
    TermPositions × RankerState :=
  match lookupKey st.posCache d with
  | some ps => (ps, st)
  | none => (r.termPos d, ⟨st.docvecCache, st.posCache ++ [(d, r.termPos d)], st.freqCache⟩)

/-- The `freq_cache` check inside every scoring loop. -/
def getTermCountsCached (r : IndexReader) (fc : FreqCache) (t : String) :
    (Nat × Nat) × FreqCache :=
  match lookupKey fc t with
  | some p => (p, fc)
  | none => (r.termCounts t, fc ++ [(t, r.termCounts t)])

/-- The shared shape of the `for term in doc_query_set` loop: accumulate a
per-term score (computed from the cached (df, cf) pair) into `rank_score`,
threading `freq_cache` through the iterations. -/
noncomputable def scoreFold (r : IndexReader) (f : Nat × Nat → String → ℝ) :
    List String → ℝ → FreqCache → ℝ × FreqCache
  | [], acc, fc => (acc, fc)
  | t :: ts, acc, fc =>
    let gc := getTermCountsCached r fc t
    scoreFold r f ts (acc + f gc.1 t) gc.2

/-- The shared shape of `PivotedLengthNormalizationRanker.score` and
`BM25Ranker.score`: resolve the document vector through `docvec_cache`,
run the term loop, and return (score, updated caches, fetched doc ids). -/
noncomputable def cachedScore (r : IndexReader)
    (f : List String → DocVector → Nat × Nat → String → ℝ)
    (st : RankerState) (q : List String) (d : String) : ℝ × RankerState × List String :=
  let g := getDocVectorCached r st d
  let res := scoreFold r (f q g.1) (termsIn q g.1) 0 g.2.1.freqCache
  (res.1, ⟨g.2.1.docvecCache, g.2.1.posCache, res.2⟩, g.2.2)

/-- One term's contribution in `PivotedLengthNormalizationRanker.score`:
`qtf * norm_tf * idf` with
`norm_tf = (1 + log(1 + log tf)) / (1 - b + b * doc_length / avg_dl)` and
`idf = log((n_docs + 1) / df)`. -/
noncomputable def PivotedLengthNormalizationRanker.termScore (r : IndexReader) (b : ℝ)
    (q : List String) (dv : DocVector) (df : Nat) (t : String) : ℝ :=
  (q.count t : ℝ) *
    ((1 + Real.log (1 + Real.log (((lookupKey dv t).getD 0 : Nat) : ℝ))) /
      (1 - b + b * (docLength dv : ℝ) / avgDl r)) *
    Real.log (((r.nDocs : ℝ) + 1) / (df : ℝ))

/-- `PivotedLengthNormalizationRanker.score`. -/
noncomputable def PivotedLengthNormalizationRanker.score (r : IndexReader) (b : ℝ)
    (st : RankerState) (q : List String) (d : String) : ℝ × RankerState × List String :=
  cachedScore r (fun q dv p t => PivotedLengthNormalizationRanker.termScore r b q dv p.1 t)
    st q d

/-- The default value of the `b` parameter of
`PivotedLengthNormalizationRanker.score`. -/
noncomputable def plnBDefault : ℝ := 0.5

/-- BM25 `idf = log((n_docs - df + 0.5) / (df + 0.5))`. -/
noncomputable def BM25Ranker.idf (n df : ℝ) : ℝ := Real.log ((n - df + 0.5) / (df + 0.5))

/-- BM25 `norm_tf = ((k1 + 1) * tf) / (k1 * (1 - b + b * doc_length / avg_dl) + tf)`. -/
noncomputable def BM25Ranker.normTf (k1 kb avgdl dl tf : ℝ) : ℝ :=
  ((k1 + 1) * tf) / (k1 * (1 - kb + kb * dl / avgdl) + tf)

/-- BM25 `norm_qtf = ((k3 + 1) * qtf) / (k3 + qtf)`. -/
noncomputable def BM25Ranker.normQtf (k3 qtf : ℝ) : ℝ := ((k3 + 1) * qtf) / (k3 + qtf)

/-- One term's contribution in `BM25Ranker.score`:
`idf * norm_tf * norm_qtf`. -/
noncomputable def BM25Ranker.termScore (r : IndexReader) (k1 kb k3 : ℝ)
    (q : List String) (dv : DocVector) (df : Nat) (t : String) : ℝ :=
  BM25Ranker.idf (r.nDocs : ℝ) (df : ℝ) *
    BM25Ranker.normTf k1 kb (avgDl r) (docLength dv : ℝ) (((lookupKey dv t).getD 0 : Nat) : ℝ) *
    BM25Ranker.normQtf k3 (q.count t : ℝ)

/-- `BM25Ranker.score`. -/
noncomputable def BM25Ranker.score (r : IndexReader) (k1 kb k3 : ℝ)
    (st : RankerState) (q : List String) (d : String) : ℝ × RankerState × List String :=
  cachedScore r (fun q dv p t => BM25Ranker.termScore r k1 kb k3 q dv p.1 t) st q d

/-- The default `k1` of `BM25Ranker.score`. -/
noncomputable def bm25K1Default : ℝ := 1.2

/-- The default `b` of `BM25Ranker.score`. -/
noncomputable def bm25BDefault : ℝ := 0.3

/-- The default `k3` of `BM25Ranker.score`. -/
noncomputable def bm25K3Default : ℝ := 1.5

/-- `query_position = {k: v for v, k in enumerate(query)}`: fold the
enumerated query into a dict from term to index. -/
def queryPosition (q : List String) : List (String × Nat) :=
  q.enum.foldl (fun m p => dictInsert m p.2 p.1) []

/-- `trp_q = query_position[term] / query_length` in `CustomRanker.score`. -/
noncomputable def CustomRanker.trpQ (q : List String) (t : String) : ℝ :=
  ((((lookupKey (queryPosition q) t).getD 0) : Nat) : ℝ) / (q.length : ℝ)

/-- `np.mean` of a list of token offsets. -/
noncomputable def meanPos (l : List Nat) : ℝ :=
  ((l.map (fun n => (n : ℝ))).sum) / (l.length : ℝ)

/-- `trp_d = log(log(doc_length + 1) / log(mean(doc_positions[term]) + 1))`
in `CustomRanker.score`. -/
noncomputable def CustomRanker.trpD (dv : DocVector) (pos : TermPositions) (t : String) : ℝ :=
  Real.log (Real.log ((docLength dv : ℝ) + 1) /
    Real.log (meanPos ((lookupKey pos t).getD []) + 1))

/-- One term's contribution in `CustomRanker.score`:
`lmd * (log tf / (qtf * trp_q * trp_d + sm)) + (1 - lmd) * (ci * idf + sm)`
with `ci = (cf / n_terms) * (n_docs / df)` and `idf = log(n_docs / df)`. -/
noncomputable def CustomRanker.termScore (r : IndexReader) (lmd sm : ℝ)
    (q : List String) (dv : DocVector) (pos : TermPositions) (p : Nat × Nat)
    (t : String) : ℝ :=
  lmd * (Real.log (((lookupKey dv t).getD 0 : Nat) : ℝ) /
      ((q.count t : ℝ) * CustomRanker.trpQ q t * CustomRanker.trpD dv pos t + sm)) +
    (1 - lmd) * (((p.2 : ℝ) / (r.totalTerms : ℝ)) * ((r.nDocs : ℝ) / (p.1 : ℝ)) *
        Real.log ((r.nDocs : ℝ) / (p.1 : ℝ)) + sm)

/-- `CustomRanker.score`: like the other two but it additionally resolves the
term-position map through `positions_cache` before the loop. -/
noncomputable def CustomRanker.score (r : IndexReader) (lmd sm : ℝ)
    (st : RankerState) (q : List String) (d : String) : ℝ × RankerState × List String :=
  let g := getDocVectorCached r st d
  let gp := getTermPosCached r g.2.1 d
  let res := scoreFold r (fun p t => CustomRanker.termScore r lmd sm q g.1 gp.1 p t)
    (termsIn q g.1) 0 gp.2.freqCache
  (res.1, ⟨gp.2.docvecCache, gp.2.posCache, res.2⟩, g.2.2)

/-- The default `lmd` of `CustomRanker.score`. -/
noncomputable def customLmdDefault : ℝ := 0.6

/-- The default `sm` of `CustomRanker.score`. -/
noncomputable def customSmDefault : ℝ := 0.2

/-- A sequence of `score` calls on one ranker instance built from
`cachedScore`, threading the caches and concatenating the per-call lists of
doc ids fetched from the underlying reader. -/
noncomputable def runCached (r : IndexReader)
    (f : List String → DocVector → Nat × Nat → String → ℝ) :
    List (List String × String) → RankerState → RankerState × List String
  | [], st => (st, [])
  | c :: cs, st =>
    let s := cachedScore r f st c.1 c.2
    let rest := runCached r f cs s.2.1
    (rest.1, s.2.2 ++ rest.2)

/-- A sequence of `PivotedLengthNormalizationRanker.score` calls on one
instance. -/
noncomputable def PivotedLengthNormalizationRanker.run (r : IndexReader) (b : ℝ) :
    List (List String × String) → RankerState → RankerState × List String :=
  runCached r (fun q dv p t => PivotedLengthNormalizationRanker.termScore r b q dv p.1 t)

/-- A sequence of `BM25Ranker.score` calls on one instance. -/
noncomputable def BM25Ranker.run (r : IndexReader) (k1 kb k3 : ℝ) :
    List (List String × String) → RankerState → RankerState × List String :=
  runCached r (fun q dv p t => BM25Ranker.termScore r k1 kb k3 q dv p.1 t)

/-- `rank_query` of main.py: for each candidate document, attempt the scoring
call; on any failure record 0; store into the `doc_score` dict. -/
noncomputable def rank_query {α : Type} [DecidableEq α] (score : α → Option ℝ)
    (docList : List α) : List (α × ℝ) :=
  docList.foldl (fun m i => dictInsert m i ((score i).getD 0)) []

/-- The keys of a Python dict populated by iterating a list: first-occurrence
order, duplicates collapsed. -/
def firstDedup {α : Type} [DecidableEq α] (l : List α) : List α :=
  l.foldl (fun acc a => if a ∈ acc then acc else acc ++ [a]) []

/-- Stable descending insertion: an element is placed before the first entry
whose score is ≤ its own, hence after every strictly larger entry and before
every equal one inserted earlier from further right. -/
def insertDesc {α β : Type} [LinearOrder β] (x : α × β) : List (α × β) → List (α × β)
  | [] => [x]
  | y :: ys => if y.2 ≤ x.2 then x :: y :: ys else y :: insertDesc x ys

/-- Stable sort by descending score, modelling Python's stable
`sorted(..., reverse=True)`. -/
def sortDesc {α β : Type} [LinearOrder β] : List (α × β) → List (α × β)
  | [] => []
  | x :: xs => insertDesc x (sortDesc xs)

/-- `doc_ranked = sorted(doc_score, key=doc_score.get, reverse=True)`. -/
noncomputable def rankedList {α : Type} [DecidableEq α] (score : α → Option ℝ)
    (docList : List α) : List α :=
  (sortDesc (rank_query score docList)).map Prod.fst

/-- The last index at which a term occurs in the query, if any. -/
def lastIdxOf : List String → String → Option Nat
  | [], _ => none
  | a :: q', t =>
    match lastIdxOf q' t with
    | some i => some (i + 1)
    | none => if a = t then some 0 else none

/-- A `freq_cache` agrees with the reader on every entry it holds. -/
def FreqCoherent (r : IndexReader) (fc : FreqCache) : Prop :=
  ∀ t p, lookupKey fc t = some p → p = r.termCounts t

/-- All three caches agree with the reader on every entry they hold; this is
every state a ranker instance can actually reach, since entries are only ever
copied in from the reader. -/
def Coherent (r : IndexReader) (st : RankerState) : Prop :=
  (∀ d dv, lookupKey st.docvecCache d = some dv → dv = r.docVec d) ∧
    (∀ d ps, lookupKey st.posCache d = some ps → ps = r.termPos d) ∧
    FreqCoherent r st.freqCache

/-- The specification's pivoted-length-normalization score: the sum, over the
set intersection of the query's distinct terms and the document vector's
keys, of `qtf * norm_tf * idf`, with `df` taken directly from the index. -/
noncomputable def PivotedLengthNormalizationRanker.specScore (r : IndexReader) (b : ℝ)
    (q : List String) (d : String) : ℝ :=
  Finset.sum (q.toFinset ∩ ((r.docVec d).map Prod.fst).toFinset)
    (fun t => PivotedLengthNormalizationRanker.termScore r b q (r.docVec d)
      (r.termCounts t).1 t)

/-- The specification's BM25 score: the sum, over the query/document
vocabulary intersection, of `idf * norm_tf * norm_qtf`. -/
noncomputable def BM25Ranker.specScore (r : IndexReader) (k1 kb k3 : ℝ)
    (q : List String) (d : String) : ℝ :=
  Finset.sum (q.toFinset ∩ ((r.docVec d).map Prod.fst).toFinset)
    (fun t => BM25Ranker.termScore r k1 kb k3 q (r.docVec d) (r.termCounts t).1 t)

/-- A one-document, one-term index used to instantiate the theorems below on
concrete inputs. -/
def rEx : IndexReader :=
  ⟨1, 1, fun _ => [("a", 1)], fun _ => (1, 1), fun _ => [("a", [1])]⟩

/-- A scoring function that fails on every document. -/
def exScore : String → Option ℝ := fun _ => none

theorem lookupKey_nil {α β : Type} [DecidableEq α] (k : α) :
    lookupKey ([] : List (α × β)) k = none := rfl

theorem lookupKey_append_some {α β : Type} [DecidableEq α] {l₁ : List (α × β)}
    (l₂ : List (α × β)) {k : α} {v : β} (h : lookupKey l₁ k = some v) :
    lookupKey (l₁ ++ l₂) k = some v := by
  induction l₁ with
  | nil => simp [lookupKey] at h
  | cons p ps ih =>
    by_cases hp : p.1 = k
    · simp [lookupKey, hp] at h
      simp [lookupKey, hp, h]
    · simp [lookupKey, hp] at h
      simp [lookupKey, hp, ih h]

theorem lookupKey_append_none {α β : Type} [DecidableEq α] {l₁ : List (α × β)}
    (l₂ : List (α × β)) {k : α} (h : lookupKey l₁ k = none) :
    lookupKey (l₁ ++ l₂) k = lookupKey l₂ k := by
  induction l₁ with
  | nil => simp
  | cons p ps ih =>
    by_cases hp : p.1 = k
    · simp [lookupKey, hp] at h
    · simp [lookupKey, hp] at h
      simp [lookupKey, hp, ih h]

theorem lookupKey_isSome_iff {α β : Type} [DecidableEq α] (l : List (α × β)) (k : α) :
    (lookupKey l k).isSome ↔ k ∈ l.map Prod.fst := by
  induction l with
  | nil => simp [lookupKey]
  | cons p ps ih =>
    by_cases hp : p.1 = k
    · simp [lookupKey, hp]
    · simp [lookupKey, hp, ih, Ne.symm hp]

theorem lookupKey_mapUpdate {α β : Type} [DecidableEq α] (m : List (α × β)) (k k' : α)
    (v : β) :
    lookupKey (m.map (fun p => if p.1 = k then (k, v) else p)) k' =
      if k' = k then (if (lookupKey m k).isSome then some v else none)
      else lookupKey m k' := by
  induction m with
  | nil => simp [lookupKey]
  | cons p ps ih =>
    by_cases hp : p.1 = k
    · by_cases hk : k' = k
      · simp [lookupKey, hp, hk]
      · simp [lookupKey, hp, hk, ih, Ne.symm hk]
    · by_cases hk : k' = k
      · subst hk
        simp [lookupKey, hp, ih, Ne.symm hp]
      · by_cases hpk : p.1 = k'
        · simp [lookupKey, hp, hpk, hk]
        · simp [lookupKey, hp, hpk, hk, ih]

theorem lookupKey_dictInsert {α β : Type} [DecidableEq α] (m : List (α × β)) (k k' : α)
    (v : β) :
    lookupKey (dictInsert m k v) k' = if k' = k then some v else lookupKey m k' := by
  unfold dictInsert
  by_cases hs : (lookupKey m k).isSome
  · simp [hs, lookupKey_mapUpdate]
  · rw [if_neg hs]
    have hn : lookupKey m k = none := Option.not_isSome_iff_eq_none.mp hs
    by_cases hk : k' = k
    · subst hk
      rw [lookupKey_append_none _ hn]
      simp [lookupKey]
    · by_cases hm : (lookupKey m k').isSome
      · obtain ⟨w, hw⟩ := Option.isSome_iff_exists.mp hm
        rw [lookupKey_append_some _ hw, hw, if_neg hk]
      · have hn' : lookupKey m k' = none := Option.not_isSome_iff_eq_none.mp hm
        rw [lookupKey_append_none _ hn', hn', if_neg hk]
        simp [lookupKey, Ne.symm hk]

theorem keys_dictInsert {α β : Type} [DecidableEq α] (m : List (α × β)) (k : α) (v : β) :
    (dictInsert m k v).map Prod.fst =
      if (lookupKey m k).isSome then m.map Prod.fst else m.map Prod.fst ++ [k] := by
  unfold dictInsert
  by_cases hs : (lookupKey m k).isSome
  · simp only [hs, if_pos, List.map_map, if_true]
    apply List.map_congr_left
    intro p hp
    by_cases h : p.1 = k <;> simp [h]
  · simp [hs]

theorem coherent_empty (r : IndexReader) : Coherent r RankerState.empty := by
  refine ⟨?_, ?_, ?_⟩ <;> intro a b h <;> simp [RankerState.empty, lookupKey] at h

theorem getTermCountsCached_hit {r : IndexReader} {fc : FreqCache} {t : String}
    {p : Nat × Nat} (h : lookupKey fc t = some p) :
    getTermCountsCached r fc t = (p, fc) := by
  unfold getTermCountsCached
  rw [h]

theorem getTermCountsCached_miss {r : IndexReader} {fc : FreqCache} {t : String}
    (h : lookupKey fc t = none) :
    getTermCountsCached r fc t = (r.termCounts t, fc ++ [(t, r.termCounts t)]) := by
  unfold getTermCountsCached
  rw [h]

theorem getTermCountsCached_fst {r : IndexReader} {fc : FreqCache}
    (h : FreqCoherent r fc) (t : String) :
    (getTermCountsCached r fc t).1 = r.termCounts t := by
  rcases hl : lookupKey fc t with _ | p
  · rw [getTermCountsCached_miss hl]
  · rw [getTermCountsCached_hit hl]
    exact h t p hl

theorem freqCoherent_append {r : IndexReader} {fc : FreqCache} (h : FreqCoherent r fc)
    (t : String) : FreqCoherent r (fc ++ [(t, r.termCounts t)]) := by
  intro t' p' h'
  rcases hc : lookupKey fc t' with _ | p''
  · rw [lookupKey_append_none _ hc] at h'
    simp [lookupKey] at h'
    rcases h' with ⟨h1, h2⟩
    subst h1
    exact h2.symm
  · have h2 := (lookupKey_append_some ([(t, r.termCounts t)]) hc).symm.trans h'
    exact (Option.some.inj h2) ▸ h t' p'' hc

theorem getTermCountsCached_snd {r : IndexReader} {fc : FreqCache}
    (h : FreqCoherent r fc) (t : String) :
    FreqCoherent r (getTermCountsCached r fc t).2 := by
  rcases hl : lookupKey fc t with _ | p
  · rw [getTermCountsCached_miss hl]
    exact freqCoherent_append h t
  · rw [getTermCountsCached_hit hl]
    exact h

theorem scoreFold_fst {r : IndexReader} (f : Nat × Nat → String → ℝ) :
    ∀ (ts : List String) (acc : ℝ) (fc : FreqCache), FreqCoherent r fc →
      (scoreFold r f ts acc fc).1 = acc + ((ts.map (fun t => f (r.termCounts t) t)).sum)
  | [], acc, fc, _ => by simp [scoreFold]
  | t :: ts, acc, fc, h => by
    have h1 := getTermCountsCached_fst h t
    have h2 := getTermCountsCached_snd h t
    simp only [scoreFold]
    rw [scoreFold_fst f ts _ _ h2, h1]
    simp [add_assoc]

theorem getDocVectorCached_hit {r : IndexReader} {st : RankerState} {d : String}
    {dv : DocVector} (h : lookupKey st.docvecCache d = some dv) :
    getDocVectorCached r st d = (dv, st, []) := by
  unfold getDocVectorCached
  rw [h]

theorem getDocVectorCached_miss {r : IndexReader} {st : RankerState} {d : String}
    (h : lookupKey st.docvecCache d = none) :
    getDocVectorCached r st d =
      (r.docVec d, ⟨st.docvecCache ++ [(d, r.docVec d)], st.posCache, st.freqCache⟩,
        [d]) := by
  unfold getDocVectorCached
  rw [h]

theorem getDocVectorCached_fst {r : IndexReader} {st : RankerState}
    (hco : Coherent r st) (d : String) :
    (getDocVectorCached r st d).1 = r.docVec d := by
  rcases hl : lookupKey st.docvecCache d with _ | dv
  · rw [getDocVectorCached_miss hl]
  · rw [getDocVectorCached_hit hl]
    exact hco.1 d dv hl

theorem getDocVectorCached_freq (r : IndexReader) (st : RankerState) (d : String) :
    (getDocVectorCached r st d).2.1.freqCache = st.freqCache := by
  rcases hl : lookupKey st.docvecCache d with _ | dv
  · rw [getDocVectorCached_miss hl]
  · rw [getDocVectorCached_hit hl]

theorem getDocVectorCached_pos (r : IndexReader) (st : RankerState) (d : String) :
    (getDocVectorCached r st d).2.1.posCache = st.posCache := by
  rcases hl : lookupKey st.docvecCache d with _ | dv
  · rw [getDocVectorCached_miss hl]
  · rw [getDocVectorCached_hit hl]

theorem getTermPosCached_hit {r : IndexReader} {st : RankerState} {d : String}
    {ps : TermPositions} (h : lookupKey st.posCache d = some ps) :
    getTermPosCached r st d = (ps, st) := by
  unfold getTermPosCached
  rw [h]

theorem getTermPosCached_miss {r : IndexReader} {st : RankerState} {d : String}
    (h : lookupKey st.posCache d = none) :
    getTermPosCached r st d =
      (r.termPos d, ⟨st.docvecCache, st.posCache ++ [(d, r.termPos d)], st.freqCache⟩) := by
  unfold getTermPosCached
  rw [h]

theorem getTermPosCached_fst {r : IndexReader} {st : RankerState}
    (hpos : ∀ d ps, lookupKey st.posCache d = some ps → ps = r.termPos d) (d : String) :
    (getTermPosCached r st d).1 = r.termPos d := by
  rcases hl : lookupKey st.posCache d with _ | ps
  · rw [getTermPosCached_miss hl]
  · rw [getTermPosCached_hit hl]
    exact hpos d ps hl

theorem getTermPosCached_freq (r : IndexReader) (st : RankerState) (d : String) :
    (getTermPosCached r st d).2.freqCache = st.freqCache := by
  rcases hl : lookupKey st.posCache d with _ | ps
  · rw [getTermPosCached_miss hl]
  · rw [getTermPosCached_hit hl]

theorem cachedScore_fst {r : IndexReader} {st : RankerState}
    (f : List String → DocVector → Nat × Nat → String → ℝ)
    (hco : Coherent r st) (q : List String) (d : String) :
    (cachedScore r f st q d).1 =
      ((termsIn q (r.docVec d)).map (fun t => f q (r.docVec d) (r.termCounts t) t)).sum := by
  simp only [cachedScore]
  rw [getDocVectorCached_fst hco d, getDocVectorCached_freq r st d]
  rw [scoreFold_fst _ _ _ _ hco.2.2]
  simp

theorem termsIn_nodup (q : List String) (dv : DocVector) : (termsIn q dv).Nodup :=
  (List.nodup_dedup q).filter _

theorem termsIn_toFinset (q : List String) (dv : DocVector) :
    (termsIn q dv).toFinset = q.toFinset ∩ (dv.map Prod.fst).toFinset := by
  ext t
  simp [termsIn, List.mem_filter, lookupKey_isSome_iff]

theorem sum_map_termsIn (q : List String) (dv : DocVector) (f : String → ℝ) :
    ((termsIn q dv).map f).sum =
      Finset.sum (q.toFinset ∩ (dv.map Prod.fst).toFinset) f := by
  rw [← termsIn_toFinset]
  exact (List.sum_toFinset f (termsIn_nodup q dv)).symm

theorem termsIn_eq_nil_of_inter_empty {q : List String} {dv : DocVector}
    (h : q.toFinset ∩ (dv.map Prod.fst).toFinset = ∅) : termsIn q dv = [] := by
  have h2 := termsIn_toFinset q dv
  rw [h] at h2
  exact (List.toFinset_eq_empty_iff _).mp h2

theorem customScore_empty {r : IndexReader} {st : RankerState} (lmd sm : ℝ)
    (hco : Coherent r st) {q : List String} {d : String}
    (h : termsIn q (r.docVec d) = []) :
    (CustomRanker.score r lmd sm st q d).1 = 0 := by
  simp only [CustomRanker.score]
  rw [getDocVectorCached_fst hco d, h]
  simp [scoreFold]

/-- Claim C1: for every query and document id, if the set intersection of the
query's distinct terms and the document vector's keys is empty, then the
score is 0 for every scoring variant (PivotedLengthNorm, BM25, CustomHybrid);
the empty intersection is handled as a zero score, not as an error. -/
theorem claim_C1_empty_intersection_zero (r : IndexReader) (st : RankerState)
    (b k1 kb k3 lmd sm : ℝ) (q : List String) (d : String)
    (hco : Coherent r st)
    (h : q.toFinset ∩ ((r.docVec d).map Prod.fst).toFinset = ∅) :
    (PivotedLengthNormalizationRanker.score r b st q d).1 = 0 ∧
      (BM25Ranker.score r k1 kb k3 st q d).1 = 0 ∧
      (CustomRanker.score r lmd sm st q d).1 = 0 := by
  have hterms : termsIn q (r.docVec d) = [] := termsIn_eq_nil_of_inter_empty h
  refine ⟨?_, ?_, customScore_empty lmd sm hco hterms⟩
  · simp only [PivotedLengthNormalizationRanker.score]
    rw [cachedScore_fst _ hco q d, hterms]
    simp
  · simp only [BM25Ranker.score]
    rw [cachedScore_fst _ hco q d, hterms]
    simp

/-- Claim C2: from any reachable (cache-coherent) ranker state, the pivoted
length normalization score equals the sum, over the terms in the
query/document vocabulary intersection, of `qtf * norm_tf * idf` with
`norm_tf = (1 + ln(1 + ln tf)) / (1 - b + b * doc_length / avg_dl)`,
`idf = ln((n_docs + 1) / df)`, `doc_length` the sum of the document vector's
frequencies and `avg_dl = total_terms / n_docs`; the `b` parameter defaults
to 0.5. -/
theorem claim_C2_pln_score_formula (r : IndexReader) (st : RankerState) (b : ℝ)
    (q : List String) (d : String) (hco : Coherent r st) :
    (PivotedLengthNormalizationRanker.score r b st q d).1 =
      PivotedLengthNormalizationRanker.specScore r b q d ∧ plnBDefault = 0.5 := by
  refine ⟨?_, rfl⟩
  simp only [PivotedLengthNormalizationRanker.score]
  rw [cachedScore_fst _ hco q d, sum_map_termsIn]
  rfl

/-- Claim C3: from any reachable (cache-coherent) ranker state, the BM25
score equals the sum, over the terms of the query/document vocabulary
intersection, of `idf * norm_tf * norm_qtf`, with the parameters defaulting
to k1 = 1.2, b = 0.3, k3 = 1.5; and the idf is not clamped: it is strictly
negative whenever `n_docs - df + 0.5` is positive but smaller than
`df + 0.5` (very common terms). -/
theorem claim_C3_bm25_score_formula (r : IndexReader) (st : RankerState)
    (k1 kb k3 : ℝ) (q : List String) (d : String) (hco : Coherent r st) :
    (BM25Ranker.score r k1 kb k3 st q d).1 = BM25Ranker.specScore r k1 kb k3 q d ∧
      (bm25K1Default = 1.2 ∧ bm25BDefault = 0.3 ∧ bm25K3Default = 1.5) ∧
      (∀ n df : ℝ, 0 < n - df + 0.5 → n - df + 0.5 < df + 0.5 →
        BM25Ranker.idf n df < 0) := by
  refine ⟨?_, ⟨rfl, rfl, rfl⟩, ?_⟩
  · simp only [BM25Ranker.score]
    rw [cachedScore_fst _ hco q d, sum_map_termsIn]
    rfl
  · intro n df h1 h2
    have hlt : (n - df + 0.5) / (df + 0.5) < 1 := (div_lt_one (lt_trans h1 h2)).mpr h2
    exact Real.log_neg (div_pos h1 (lt_trans h1 h2)) hlt

theorem customScore_fst {r : IndexReader} {st : RankerState} (lmd sm : ℝ)
    (hco : Coherent r st) (q : List String) (d : String) :
    (CustomRanker.score r lmd sm st q d).1 =
      ((termsIn q (r.docVec d)).map
        (fun t => CustomRanker.termScore r lmd sm q (r.docVec d) (r.termPos d)
          (r.termCounts t) t)).sum := by
  simp only [CustomRanker.score]
  have hdv := getDocVectorCached_fst hco d
  have hpos : (getTermPosCached r (getDocVectorCached r st d).2.1 d).1 = r.termPos d := by
    apply getTermPosCached_fst
    intro d' ps h'
    rw [getDocVectorCached_pos] at h'
    exact hco.2.1 d' ps h'
  have hfreq : (getTermPosCached r (getDocVectorCached r st d).2.1 d).2.freqCache =
      st.freqCache := by
    rw [getTermPosCached_freq, getDocVectorCached_freq]
  rw [hdv, hpos, hfreq, scoreFold_fst _ _ _ _ hco.2.2]
  simp

theorem plnTermScore_perm {q q' : List String} (hperm : q.Perm q') (r : IndexReader)
    (b : ℝ) (dv : DocVector) (df : Nat) (t : String) :
    PivotedLengthNormalizationRanker.termScore r b q dv df t =
      PivotedLengthNormalizationRanker.termScore r b q' dv df t := by
  simp only [PivotedLengthNormalizationRanker.termScore, hperm.count_eq]

theorem bm25TermScore_perm {q q' : List String} (hperm : q.Perm q') (r : IndexReader)
    (k1 kb k3 : ℝ) (dv : DocVector) (df : Nat) (t : String) :
    BM25Ranker.termScore r k1 kb k3 q dv df t =
      BM25Ranker.termScore r k1 kb k3 q' dv df t := by
  simp only [BM25Ranker.termScore, hperm.count_eq]

/-- Claim C10: for every query, every permutation of that query, and every
document id, PivotedLengthNorm and BM25 give the same score on both: they
depend on the query only through its multiset of terms (distinct-term set
and per-term counts), not through term order. -/
theorem claim_C10_perm_invariance (r : IndexReader) (st : RankerState)
    (q q' : List String) (d : String) (hperm : q.Perm q') (hco : Coherent r st) :
    (∀ b, (PivotedLengthNormalizationRanker.score r b st q d).1 =
        (PivotedLengthNormalizationRanker.score r b st q' d).1) ∧
      (∀ k1 kb k3, (BM25Ranker.score r k1 kb k3 st q d).1 =
        (BM25Ranker.score r k1 kb k3 st q' d).1) := by
  constructor
  · intro b
    simp only [PivotedLengthNormalizationRanker.score]
    rw [cachedScore_fst _ hco q d, cachedScore_fst _ hco q' d,
      sum_map_termsIn, sum_map_termsIn, List.toFinset_eq_of_perm q q' hperm]
    exact Finset.sum_congr rfl
      (fun t _ => plnTermScore_perm hperm r b (r.docVec d) (r.termCounts t).1 t)
  · intro k1 kb k3
    simp only [BM25Ranker.score]
    rw [cachedScore_fst _ hco q d, cachedScore_fst _ hco q' d,
      sum_map_termsIn, sum_map_termsIn, List.toFinset_eq_of_perm q q' hperm]
    exact Finset.sum_congr rfl
      (fun t _ => bm25TermScore_perm hperm r k1 kb k3 (r.docVec d) (r.termCounts t).1 t)

/-- Claim C6: with the document frequency, document length, average document
length, query term frequency and the parameters k1 > 0, 0 ≤ b ≤ 1, k3 > 0
held fixed (with doc_length and avg_dl positive, as they are for any scored
document in a nonempty collection), strictly increasing the document term
frequency over positive values strictly increases BM25's `norm_tf`, and
hence, when the idf is positive, strictly increases the term contribution
`idf * norm_tf * norm_qtf`. -/
theorem claim_C6_bm25_tf_monotone (k1 kb k3 avgdl dl tf1 tf2 idf qtf : ℝ)
    (hk1 : 0 < k1) (hb0 : 0 ≤ kb) (hb1 : kb ≤ 1) (havg : 0 < avgdl) (hdl : 0 < dl)
    (htf1 : 0 < tf1) (h12 : tf1 < tf2) :
    BM25Ranker.normTf k1 kb avgdl dl tf1 < BM25Ranker.normTf k1 kb avgdl dl tf2 ∧
      (0 < idf → 0 < k3 → 0 < qtf →
        idf * BM25Ranker.normTf k1 kb avgdl dl tf1 * BM25Ranker.normQtf k3 qtf <
          idf * BM25Ranker.normTf k1 kb avgdl dl tf2 * BM25Ranker.normQtf k3 qtf) := by
  have hK : 0 < 1 - kb + kb * dl / avgdl := by
    rcases eq_or_lt_of_le hb0 with h0 | h0
    · rw [← h0]
      norm_num
    · have hterm : 0 < kb * dl / avgdl := by positivity
      have h1b : (0:ℝ) ≤ 1 - kb := by linarith
      linarith
  have htf2 : 0 < tf2 := lt_trans htf1 h12
  have hkK : 0 < k1 * (1 - kb + kb * dl / avgdl) := mul_pos hk1 hK
  have hmono : BM25Ranker.normTf k1 kb avgdl dl tf1 < BM25Ranker.normTf k1 kb avgdl dl tf2 := by
    unfold BM25Ranker.normTf
    have hd1 : 0 < k1 * (1 - kb + kb * dl / avgdl) + tf1 := by linarith
    have hd2 : 0 < k1 * (1 - kb + kb * dl / avgdl) + tf2 := by linarith
    rw [div_lt_div_iff₀ hd1 hd2]
    nlinarith [mul_pos hkK (sub_pos.mpr h12)]
  refine ⟨hmono, fun hidf hk3 hqtf => ?_⟩
  have hq : 0 < BM25Ranker.normQtf k3 qtf := by
    unfold BM25Ranker.normQtf
    have hnum : 0 < (k3 + 1) * qtf := mul_pos (by linarith) hqtf
    exact div_pos hnum (by linarith)
  exact mul_lt_mul_of_pos_right (mul_lt_mul_of_pos_left hmono hidf) hq

/-- Claim C4 (amended): when a term's document term frequency is exactly 1,
the inner `ln(1 + ln tf)` of PivotedLengthNorm vanishes but the leading 1 in
the numerator remains, so the per-term contribution equals
`qtf * (1 / (1 - b + b * doc_length / avg_dl)) * idf`, which is nonzero in
general; likewise CustomHybrid's lmd-weighted positional component vanishes
(`ln 1 = 0`) but the collection-importance component remains, so its
contribution equals `(1 - lmd) * (ci * idf + sm)`.  Neither variant yields a
zero per-term contribution merely because the document term frequency is 1. -/
theorem claim_C4_amended_tf_one (r : IndexReader) (b lmd sm : ℝ) (q : List String)
    (dv : DocVector) (pos : TermPositions) (df : Nat) (p : Nat × Nat) (t : String)
    (h : lookupKey dv t = some 1) :
    PivotedLengthNormalizationRanker.termScore r b q dv df t =
      (q.count t : ℝ) * (1 / (1 - b + b * (docLength dv : ℝ) / avgDl r)) *
        Real.log (((r.nDocs : ℝ) + 1) / (df : ℝ)) ∧
      CustomRanker.termScore r lmd sm q dv pos p t =
        (1 - lmd) * (((p.2 : ℝ) / (r.totalTerms : ℝ)) * ((r.nDocs : ℝ) / (p.1 : ℝ)) *
          Real.log ((r.nDocs : ℝ) / (p.1 : ℝ)) + sm) := by
  constructor
  · simp [PivotedLengthNormalizationRanker.termScore, h, Real.log_one]
  · simp [CustomRanker.termScore, h, Real.log_one]

/-- Claim C4 counterexample: in a one-document index where the document
vector is [("a", 1)] — so term "a" is in the vocabulary intersection with
document term frequency exactly 1 — both the PivotedLengthNorm score and the
CustomHybrid score (equal to the single term's contribution) are nonzero,
refuting the claim that such a term always contributes zero. -/
theorem claim_C4_counterexample :
    lookupKey (rEx.docVec "d") "a" = some 1 ∧
      (PivotedLengthNormalizationRanker.score rEx plnBDefault RankerState.empty
        ["a"] "d").1 ≠ 0 ∧
      (CustomRanker.score rEx customLmdDefault customSmDefault RankerState.empty
        ["a"] "d").1 ≠ 0 := by
  have hterms : termsIn ["a"] (rEx.docVec "d") = ["a"] := by decide
  have hlog2 : Real.log 2 ≠ 0 := ne_of_gt (Real.log_pos (by norm_num))
  refine ⟨by decide, ?_, ?_⟩
  · simp only [PivotedLengthNormalizationRanker.score]
    rw [cachedScore_fst _ (coherent_empty rEx) ["a"] "d", hterms]
    simp only [List.map_cons, List.map_nil, List.sum_cons, List.sum_nil, add_zero]
    simp only [PivotedLengthNormalizationRanker.termScore, rEx, plnBDefault, docLength,
      avgDl, lookupKey]
    norm_num [Real.log_one]
  · rw [customScore_fst _ _ (coherent_empty rEx) ["a"] "d", hterms]
    simp only [List.map_cons, List.map_nil, List.sum_cons, List.sum_nil, add_zero]
    simp only [CustomRanker.termScore, rEx, customLmdDefault, customSmDefault, lookupKey]
    norm_num [Real.log_one]

theorem foldl_dictInsert_enumFrom (t : String) :
    ∀ (q : List String) (k : Nat) (init : List (String × Nat)),
      lookupKey ((List.enumFrom k q).foldl (fun m p => dictInsert m p.2 p.1) init) t =
        (lastIdxOf q t).elim (lookupKey init t) (fun i => some (k + i))
  | [], k, init => by simp [lastIdxOf, List.enumFrom]
  | a :: q', k, init => by
    have ih := foldl_dictInsert_enumFrom t q' (k + 1) (dictInsert init a k)
    simp only [List.enumFrom, List.foldl_cons]
    rw [ih]
    rcases hl : lastIdxOf q' t with _ | i
    · simp only [lastIdxOf, hl, Option.elim, lookupKey_dictInsert]
      by_cases ha : a = t
      · simp [ha]
      · simp [ha, Ne.symm ha]
    · simp only [lastIdxOf, hl, Option.elim]
      congr 1
      omega

theorem queryPosition_lookup (q : List String) (t : String) :
    lookupKey (queryPosition q) t = lastIdxOf q t := by
  have h := foldl_dictInsert_enumFrom t q 0 []
  rw [queryPosition, show q.enum = List.enumFrom 0 q from rfl, h]
  rcases hl : lastIdxOf q t with _ | i
  · simp [lookupKey]
  · simp

theorem lastIdxOf_isSome {q : List String} {t : String} (h : t ∈ q) :
    (lastIdxOf q t).isSome := by
  induction q with
  | nil => simp at h
  | cons a q' ih =>
    rcases hl : lastIdxOf q' t with _ | i
    · simp only [lastIdxOf, hl]
      rcases List.mem_cons.mp h with h1 | h2
      · simp [h1.symm]
      · have hs := ih h2
        rw [hl] at hs
        simp at hs
    · simp [lastIdxOf, hl]

theorem lastIdxOf_spec {q : List String} {t : String} {i : Nat}
    (h : lastIdxOf q t = some i) :
    i < q.length ∧ q.get? i = some t ∧
      ∀ j, j < q.length → q.get? j = some t → j ≤ i := by
  induction q generalizing i with
  | nil => simp [lastIdxOf] at h
  | cons a q' ih =>
    rcases hl : lastIdxOf q' t with _ | i'
    · simp only [lastIdxOf, hl] at h
      by_cases ha : a = t
      · rw [if_pos ha] at h
        cases h
        refine ⟨by simp, by simp [ha], ?_⟩
        intro j hj hget
        cases j with
        | zero => exact le_refl 0
        | succ j' =>
          exfalso
          have hget' : q'.get? j' = some t := by simpa using hget
          have hmem : t ∈ q' := List.get?_mem hget'
          have hs := lastIdxOf_isSome hmem
          rw [hl] at hs
          simp at hs
      · rw [if_neg ha] at h
        cases h
    · simp only [lastIdxOf, hl] at h
      cases h
      obtain ⟨h1, h2, h3⟩ := ih hl
      refine ⟨by simpa using Nat.succ_lt_succ h1, by simpa using h2, ?_⟩
      intro j hj hget
      cases j with
      | zero => exact Nat.zero_le _
      | succ j' =>
        have hget' : q'.get? j' = some t := by simpa using hget
        exact Nat.succ_le_succ (h3 j' (by simpa using hj) hget')

/-- Claim C5 counterexample: for the query ["a", "b", "a"], the first index
of occurrence of "a" is 0, but the code's query-position map sends "a" to 2
(the dict comprehension lets later enumerate pairs overwrite earlier ones),
refuting the claim that each distinct query term is mapped to its first
index of occurrence. -/
theorem claim_C5_counterexample :
    lookupKey (queryPosition ["a", "b", "a"]) "a" = some 2 ∧
      lookupKey (queryPosition ["a", "b", "a"]) "a" ≠ some 0 := by
  exact ⟨by decide, by decide⟩

/-- Claim C5 (amended): in the CustomHybrid variant, the query-position map
assigns each distinct query term its LAST index of occurrence in the query
sequence (the dict comprehension overwrites earlier indices with later
ones), so `trp_q` = (last index of the term in the query) / query_length,
where query_length counts terms with repetition. -/
theorem claim_C5_amended_last_index (q : List String) (t : String) (h : t ∈ q) :
    ∃ i, lookupKey (queryPosition q) t = some i ∧
      i < q.length ∧ q.get? i = some t ∧
      (∀ j, j < q.length → q.get? j = some t → j ≤ i) ∧
      CustomRanker.trpQ q t = (i : ℝ) / (q.length : ℝ) := by
  obtain ⟨i, hi⟩ := Option.isSome_iff_exists.mp (lastIdxOf_isSome h)
  obtain ⟨h1, h2, h3⟩ := lastIdxOf_spec hi
  refine ⟨i, ?_, h1, h2, h3, ?_⟩
  · rw [queryPosition_lookup]
    exact hi
  · simp only [CustomRanker.trpQ, queryPosition_lookup, hi, Option.getD_some]

theorem lookupKey_foldl_dictInsert {α β : Type} [DecidableEq α] (g : α → β) :
    ∀ (l : List α) (m : List (α × β)) (i : α),
      lookupKey (l.foldl (fun m a => dictInsert m a (g a)) m) i =
        if i ∈ l then some (g i) else lookupKey m i
  | [], m, i => by simp
  | a :: l, m, i => by
    simp only [List.foldl_cons]
    rw [lookupKey_foldl_dictInsert g l (dictInsert m a (g a)) i]
    by_cases hil : i ∈ l
    · simp [hil]
    · by_cases hia : i = a
      · subst hia
        simp [hil, lookupKey_dictInsert]
      · simp [hil, hia, lookupKey_dictInsert]

theorem keys_foldl_dictInsert {α β : Type} [DecidableEq α] (g : α → β) :
    ∀ (l : List α) (m : List (α × β)),
      (l.foldl (fun m a => dictInsert m a (g a)) m).map Prod.fst =
        l.foldl (fun acc a => if a ∈ acc then acc else acc ++ [a]) (m.map Prod.fst)
  | [], _ => rfl
  | a :: l, m => by
    simp only [List.foldl_cons]
    rw [keys_foldl_dictInsert g l (dictInsert m a (g a))]
    congr 1
    rw [keys_dictInsert]
    by_cases h : (lookupKey m a).isSome
    · have hm := (lookupKey_isSome_iff m a).mp h
      simp [h, hm]
    · have hm : a ∉ m.map Prod.fst := fun hmem => h ((lookupKey_isSome_iff m a).mpr hmem)
      simp [h, hm]

theorem mem_foldl_dedupStep {α : Type} [DecidableEq α] :
    ∀ (l : List α) (acc : List α) (x : α),
      x ∈ l.foldl (fun acc a => if a ∈ acc then acc else acc ++ [a]) acc ↔
        x ∈ acc ∨ x ∈ l
  | [], acc, x => by simp
  | a :: l, acc, x => by
    simp only [List.foldl_cons]
    rw [mem_foldl_dedupStep l _ x]
    by_cases ha : a ∈ acc
    · rw [if_pos ha]
      constructor
      · rintro (h | h)
        · exact Or.inl h
        · exact Or.inr (List.mem_cons_of_mem a h)
      · rintro (h | h)
        · exact Or.inl h
        · rcases List.mem_cons.mp h with h1 | h2
          · rw [h1]
            exact Or.inl ha
          · exact Or.inr h2
    · rw [if_neg ha]
      simp [List.mem_append, List.mem_cons, or_assoc]

theorem nodup_foldl_dedupStep {α : Type} [DecidableEq α] :
    ∀ (l : List α) (acc : List α), acc.Nodup →
      (l.foldl (fun acc a => if a ∈ acc then acc else acc ++ [a]) acc).Nodup
  | [], _, h => h
  | a :: l, acc, h => by
    simp only [List.foldl_cons]
    apply nodup_foldl_dedupStep l
    by_cases ha : a ∈ acc
    · rw [if_pos ha]
      exact h
    · rw [if_neg ha]
      apply List.Nodup.append h (List.nodup_singleton a)
      intro x hx hxa
      rw [List.mem_singleton] at hxa
      exact ha (hxa ▸ hx)

theorem rank_query_keys {α : Type} [DecidableEq α] (score : α → Option ℝ)
    (l : List α) : (rank_query score l).map Prod.fst = firstDedup l :=
  keys_foldl_dictInsert (fun i => (score i).getD 0) l []

theorem rank_query_lookup {α : Type} [DecidableEq α] (score : α → Option ℝ)
    (l : List α) {i : α} (h : i ∈ l) :
    lookupKey (rank_query score l) i = some ((score i).getD 0) := by
  have heq := lookupKey_foldl_dictInsert (fun i => (score i).getD 0) l [] i
  rw [if_pos h] at heq
  exact heq

theorem mem_firstDedup {α : Type} [DecidableEq α] (l : List α) (x : α) :
    x ∈ firstDedup l ↔ x ∈ l := by
  rw [firstDedup, mem_foldl_dedupStep]
  simp

theorem firstDedup_nodup {α : Type} [DecidableEq α] (l : List α) :
    (firstDedup l).Nodup :=
  nodup_foldl_dedupStep l [] List.nodup_nil

/-- Claim C7: for every scoring function (which may fail on any document,
modelled as returning `none`) and every candidate list, `rank_query` absorbs
every failure as score 0 and never propagates it (it is total by
construction); every candidate document id receives exactly one entry in the
doc_score dict: the keys are the candidates in first-occurrence order
without duplicates, each candidate maps to its score, and 0 is recorded
whenever the scoring call failed. -/
theorem claim_C7_failure_absorbed {α : Type} [DecidableEq α]
    (score : α → Option ℝ) (l : List α) :
    (rank_query score l).map Prod.fst = firstDedup l ∧
      (firstDedup l).Nodup ∧
      (∀ i, i ∈ l → lookupKey (rank_query score l) i = some ((score i).getD 0)) ∧
      (∀ i, i ∈ l → score i = none → lookupKey (rank_query score l) i = some 0) := by
  refine ⟨rank_query_keys score l, firstDedup_nodup l,
    fun i h => rank_query_lookup score l h, ?_⟩
  intro i h hn
  rw [rank_query_lookup score l h, hn]
  rfl

theorem insertDesc_perm {α β : Type} [LinearOrder β] (x : α × β) :
    ∀ (l : List (α × β)), (insertDesc x l).Perm (x :: l)
  | [] => List.Perm.refl _
  | y :: ys => by
    simp only [insertDesc]
    by_cases h : y.2 ≤ x.2
    · rw [if_pos h]
    · rw [if_neg h]
      exact ((insertDesc_perm x ys).cons y).trans (List.Perm.swap x y ys)

theorem mem_insertDesc {α β : Type} [LinearOrder β] (x z : α × β) (l : List (α × β)) :
    z ∈ insertDesc x l ↔ z = x ∨ z ∈ l := by
  rw [(insertDesc_perm x l).mem_iff]
  simp

theorem insertDesc_pairwise {α β : Type} [LinearOrder β] (x : α × β) :
    ∀ (l : List (α × β)), l.Pairwise (fun p q => q.2 ≤ p.2) →
      (insertDesc x l).Pairwise (fun p q => q.2 ≤ p.2)
  | [], _ => List.pairwise_singleton _ _
  | y :: ys, h => by
    simp only [insertDesc]
    by_cases hle : y.2 ≤ x.2
    · rw [if_pos hle]
      apply List.Pairwise.cons ?_ h
      intro z hz
      rcases List.mem_cons.mp hz with h1 | h2
      · rw [h1]
        exact hle
      · exact le_trans ((List.pairwise_cons.mp h).1 z h2) hle
    · rw [if_neg hle]
      have hys := (List.pairwise_cons.mp h).2
      apply List.Pairwise.cons ?_ (insertDesc_pairwise x ys hys)
      intro z hz
      rcases (mem_insertDesc x z ys).mp hz with h1 | h2
      · rw [h1]
        exact le_of_lt (not_le.mp hle)
      · exact (List.pairwise_cons.mp h).1 z h2

theorem sortDesc_perm {α β : Type} [LinearOrder β] :
    ∀ (l : List (α × β)), (sortDesc l).Perm l
  | [] => List.Perm.refl _
  | x :: xs => (insertDesc_perm x (sortDesc xs)).trans ((sortDesc_perm xs).cons x)

theorem sortDesc_pairwise {α β : Type} [LinearOrder β] :
    ∀ (l : List (α × β)), (sortDesc l).Pairwise (fun p q => q.2 ≤ p.2)
  | [] => List.Pairwise.nil
  | x :: xs => insertDesc_pairwise x (sortDesc xs) (sortDesc_pairwise xs)

theorem insertDesc_filter {α β : Type} [LinearOrder β] (x : α × β) (c : β) :
    ∀ (l : List (α × β)),
      (insertDesc x l).filter (fun p => decide (p.2 = c)) =
        if x.2 = c then x :: l.filter (fun p => decide (p.2 = c))
        else l.filter (fun p => decide (p.2 = c))
  | [] => by
    by_cases hx : x.2 = c <;> simp [insertDesc, List.filter, hx]
  | y :: ys => by
    simp only [insertDesc]
    by_cases hle : y.2 ≤ x.2
    · rw [if_pos hle]
      by_cases hx : x.2 = c <;> simp [List.filter_cons, hx]
    · rw [if_neg hle]
      by_cases hy : y.2 = c
      · have hx : ¬ x.2 = c := by
          intro hxc
          exact hle (le_of_eq (hy.trans hxc.symm))
        simp [List.filter_cons, hy, hx, insertDesc_filter x c ys]
      · by_cases hx : x.2 = c <;>
          simp [List.filter_cons, hy, hx, insertDesc_filter x c ys]

theorem sortDesc_filter {α β : Type} [LinearOrder β] (c : β) :
    ∀ (l : List (α × β)),
      (sortDesc l).filter (fun p => decide (p.2 = c)) =
        l.filter (fun p => decide (p.2 = c))
  | [] => rfl
  | x :: xs => by
    show (insertDesc x (sortDesc xs)).filter _ = _
    rw [insertDesc_filter]
    by_cases hx : x.2 = c
    · rw [if_pos hx, sortDesc_filter c xs]
      simp [List.filter_cons, hx]
    · rw [if_neg hx, sortDesc_filter c xs]
      simp [List.filter_cons, hx]

/-- Claim C8: for every scoring function and candidate list, the ranked list
is sorted by non-increasing score; it is a permutation of the doc_score
entries, and filtering both the sorted and the original entry list to any
fixed score value yields identical sequences — equal-score documents keep
their original candidate-iteration order, which is exactly the stable
tie-break; and every candidate document id appears in the ranked list (no
top-k pruning). -/
theorem claim_C8_ranked_list {α : Type} [DecidableEq α]
    (score : α → Option ℝ) (l : List α) :
    (sortDesc (rank_query score l)).Pairwise (fun p q => q.2 ≤ p.2) ∧
      (sortDesc (rank_query score l)).Perm (rank_query score l) ∧
      (∀ c : ℝ, (sortDesc (rank_query score l)).filter (fun p => decide (p.2 = c)) =
        (rank_query score l).filter (fun p => decide (p.2 = c))) ∧
      (∀ i, i ∈ l → i ∈ rankedList score l) := by
  refine ⟨sortDesc_pairwise _, sortDesc_perm _, fun c => sortDesc_filter c _, ?_⟩
  intro i h
  rw [rankedList]
  have hperm := (sortDesc_perm (rank_query score l)).map Prod.fst
  rw [hperm.mem_iff, rank_query_keys, mem_firstDedup]
  exact h

theorem cachedScore_hit {r : IndexReader}
    {f : List String → DocVector → Nat × Nat → String → ℝ} {st : RankerState}
    {q : List String} {d : String} {dv : DocVector}
    (h : lookupKey st.docvecCache d = some dv) :
    (cachedScore r f st q d).2.1.docvecCache = st.docvecCache ∧
      (cachedScore r f st q d).2.2 = [] := by
  constructor
  · show (getDocVectorCached r st d).2.1.docvecCache = st.docvecCache
    rw [getDocVectorCached_hit h]
  · show (getDocVectorCached r st d).2.2 = []
    rw [getDocVectorCached_hit h]

theorem cachedScore_miss {r : IndexReader}
    {f : List String → DocVector → Nat × Nat → String → ℝ} {st : RankerState}
    {q : List String} {d : String}
    (h : lookupKey st.docvecCache d = none) :
    (cachedScore r f st q d).2.1.docvecCache = st.docvecCache ++ [(d, r.docVec d)] ∧
      (cachedScore r f st q d).2.2 = [d] := by
  constructor
  · show (getDocVectorCached r st d).2.1.docvecCache = st.docvecCache ++ [(d, r.docVec d)]
    rw [getDocVectorCached_miss h]
  · show (getDocVectorCached r st d).2.2 = [d]
    rw [getDocVectorCached_miss h]

theorem runCached_docvec_mono (r : IndexReader)
    (f : List String → DocVector → Nat × Nat → String → ℝ) :
    ∀ (cs : List (List String × String)) (st : RankerState),
      ∃ e, (runCached r f cs st).1.docvecCache = st.docvecCache ++ e
  | [], st => ⟨[], by simp [runCached]⟩
  | c :: cs, st => by
    simp only [runCached]
    obtain ⟨e1, he1⟩ := runCached_docvec_mono r f cs (cachedScore r f st c.1 c.2).2.1
    rcases hl : lookupKey st.docvecCache c.2 with _ | dv
    · refine ⟨[(c.2, r.docVec c.2)] ++ e1, ?_⟩
      rw [he1, (cachedScore_miss hl).1]
      simp
    · refine ⟨e1, ?_⟩
      rw [he1, (cachedScore_hit hl).1]

theorem runCached_trace_hit (r : IndexReader)
    (f : List String → DocVector → Nat × Nat → String → ℝ) (d : String) :
    ∀ (cs : List (List String × String)) (st : RankerState),
      (∀ c, c ∈ cs → c.2 = d) → (lookupKey st.docvecCache d).isSome →
        (runCached r f cs st).2 = []
  | [], _, _, _ => rfl
  | c :: cs, st, hall, hsome => by
    obtain ⟨dv, hdv⟩ := Option.isSome_iff_exists.mp hsome
    have hc2 : c.2 = d := hall c (List.mem_cons_self c cs)
    have hdvc : lookupKey st.docvecCache c.2 = some dv := by
      rw [hc2]
      exact hdv
    simp only [runCached]
    have hsome' : (lookupKey (cachedScore r f st c.1 c.2).2.1.docvecCache d).isSome := by
      rw [(cachedScore_hit hdvc).1]
      exact hsome
    rw [(cachedScore_hit hdvc).2,
      runCached_trace_hit r f d cs _ (fun c' hc' => hall c' (List.mem_cons_of_mem c hc'))
        hsome']
    rfl

theorem runCached_trace_fresh (r : IndexReader)
    (f : List String → DocVector → Nat × Nat → String → ℝ) (d : String)
    (cs : List (List String × String)) (hne : cs ≠ [])
    (hall : ∀ c, c ∈ cs → c.2 = d) :
    (runCached r f cs RankerState.empty).2 = [d] := by
  rcases cs with _ | ⟨c, cs'⟩
  · exact absurd rfl hne
  · have hc2 : c.2 = d := hall c (List.mem_cons_self c cs')
    have hmiss : lookupKey RankerState.empty.docvecCache c.2 = none := rfl
    simp only [runCached]
    have hsome : (lookupKey (cachedScore r f RankerState.empty c.1 c.2).2.1.docvecCache
        d).isSome := by
      rw [(cachedScore_miss hmiss).1, hc2]
      simp [RankerState.empty, lookupKey]
    rw [(cachedScore_miss hmiss).2,
      runCached_trace_hit r f d cs' _
        (fun c' hc' => hall c' (List.mem_cons_of_mem c hc')) hsome, hc2]
    rfl

/-- Claim C9: for every document id and every nonempty sequence of score
calls all referencing that id on a freshly constructed ranker instance (for
both the PivotedLengthNorm and the BM25 ranker), the underlying
document-vector lookup is invoked exactly once, on the first call — the
fetch trace of the whole run is exactly [d] — and from any state the
docvec cache is only ever appended to (the old cache is an initial segment
of the new one), never invalidated. -/
theorem claim_C9_cache_once (r : IndexReader) (d : String) :
    (∀ b cs, cs ≠ [] → (∀ c, c ∈ cs → c.2 = d) →
      (PivotedLengthNormalizationRanker.run r b cs RankerState.empty).2 = [d]) ∧
      (∀ k1 kb k3 cs, cs ≠ [] → (∀ c, c ∈ cs → c.2 = d) →
        (BM25Ranker.run r k1 kb k3 cs RankerState.empty).2 = [d]) ∧
      (∀ b cs st, ∃ e,
        (PivotedLengthNormalizationRanker.run r b cs st).1.docvecCache =
          st.docvecCache ++ e) ∧
      (∀ k1 kb k3 cs st, ∃ e,
        (BM25Ranker.run r k1 kb k3 cs st).1.docvecCache = st.docvecCache ++ e) :=
  ⟨fun _b cs hne hall => runCached_trace_fresh r _ d cs hne hall,
    fun _k1 _kb _k3 cs hne hall => runCached_trace_fresh r _ d cs hne hall,
    fun _b cs st => runCached_docvec_mono r _ cs st,
    fun _k1 _kb _k3 cs st => runCached_docvec_mono r _ cs st⟩

/-- Witness for claim C1: the query ["b"] shares no vocabulary with the
document vector [("a", 1)] of the example index, and all three variants
score the document 0. -/
theorem claim_C1_witness :
    (PivotedLengthNormalizationRanker.score rEx plnBDefault RankerState.empty
      ["b"] "d").1 = 0 ∧
      (BM25Ranker.score rEx bm25K1Default bm25BDefault bm25K3Default RankerState.empty
        ["b"] "d").1 = 0 ∧
      (CustomRanker.score rEx customLmdDefault customSmDefault RankerState.empty
        ["b"] "d").1 = 0 :=
  claim_C1_empty_intersection_zero rEx RankerState.empty plnBDefault bm25K1Default
    bm25BDefault bm25K3Default customLmdDefault customSmDefault ["b"] "d"
    (coherent_empty rEx) (by decide)

/-- Witness for claim C2 on the example index with its fresh ranker state. -/
theorem claim_C2_witness :
    (PivotedLengthNormalizationRanker.score rEx plnBDefault RankerState.empty
      ["a"] "d").1 =
      PivotedLengthNormalizationRanker.specScore rEx plnBDefault ["a"] "d" ∧
      plnBDefault = 0.5 :=
  claim_C2_pln_score_formula rEx RankerState.empty plnBDefault ["a"] "d"
    (coherent_empty rEx)

/-- Witness for claim C3 on the example index with its fresh ranker state. -/
theorem claim_C3_witness :
    (BM25Ranker.score rEx bm25K1Default bm25BDefault bm25K3Default RankerState.empty
      ["a"] "d").1 =
      BM25Ranker.specScore rEx bm25K1Default bm25BDefault bm25K3Default ["a"] "d" ∧
      (bm25K1Default = 1.2 ∧ bm25BDefault = 0.3 ∧ bm25K3Default = 1.5) ∧
      (∀ n df : ℝ, 0 < n - df + 0.5 → n - df + 0.5 < df + 0.5 →
        BM25Ranker.idf n df < 0) :=
  claim_C3_bm25_score_formula rEx RankerState.empty bm25K1Default bm25BDefault
    bm25K3Default ["a"] "d" (coherent_empty rEx)

/-- Witness for the amended claim C4 at a concrete term with document term
frequency 1. -/
theorem claim_C4_witness :
    PivotedLengthNormalizationRanker.termScore rEx plnBDefault ["a"] [("a", 1)] 1 "a" =
      ((["a"] : List String).count "a" : ℝ) *
        (1 / (1 - plnBDefault + plnBDefault * (docLength [("a", 1)] : ℝ) / avgDl rEx)) *
        Real.log (((rEx.nDocs : ℝ) + 1) / ((1 : Nat) : ℝ)) ∧
      CustomRanker.termScore rEx customLmdDefault customSmDefault ["a"] [("a", 1)]
        [("a", [1])] (1, 1) "a" =
        (1 - customLmdDefault) * (((((1, 1) : Nat × Nat).2 : ℝ) / (rEx.totalTerms : ℝ)) *
          ((rEx.nDocs : ℝ) / (((1, 1) : Nat × Nat).1 : ℝ)) *
          Real.log ((rEx.nDocs : ℝ) / (((1, 1) : Nat × Nat).1 : ℝ)) + customSmDefault) :=
  claim_C4_amended_tf_one rEx plnBDefault customLmdDefault customSmDefault ["a"]
    [("a", 1)] [("a", [1])] 1 (1, 1) "a" (by decide)

/-- Witness for the amended claim C5: in the query ["a", "b", "a"], the term
"a" gets trp_q = 2/3 — its last index divided by the query length. -/
theorem claim_C5_witness :
    CustomRanker.trpQ ["a", "b", "a"] "a" =
      ((2 : Nat) : ℝ) / (((["a", "b", "a"] : List String).length : Nat) : ℝ) := by
  obtain ⟨i, h1, h2, h3, h4, h5⟩ :=
    claim_C5_amended_last_index ["a", "b", "a"] "a" (by decide)
  have hi : i = 2 := by
    have h6 : lookupKey (queryPosition ["a", "b", "a"]) "a" = some 2 := by decide
    rw [h1] at h6
    exact Option.some.inj h6
  rw [h5, hi]

/-- Witness for claim C6 at concrete parameter values (the BM25 defaults)
and tf going from 1 to 2. -/
theorem claim_C6_witness :
    BM25Ranker.normTf 1.2 0.3 1 1 1 < BM25Ranker.normTf 1.2 0.3 1 1 2 ∧
      1 * BM25Ranker.normTf 1.2 0.3 1 1 1 * BM25Ranker.normQtf 1.5 1 <
        1 * BM25Ranker.normTf 1.2 0.3 1 1 2 * BM25Ranker.normQtf 1.5 1 := by
  have h := claim_C6_bm25_tf_monotone 1.2 0.3 1.5 1 1 1 2 1 1 (by norm_num)
    (by norm_num) (by norm_num) (by norm_num) (by norm_num) (by norm_num) (by norm_num)
  exact ⟨h.1, h.2 (by norm_num) (by norm_num) (by norm_num)⟩

/-- Witness for claim C7: with a scoring function that fails on every
document, the candidate "x" still gets exactly the score entry 0. -/
theorem claim_C7_witness :
    lookupKey (rank_query exScore ["x", "x", "y"]) "x" = some 0 := by
  have h := claim_C7_failure_absorbed exScore ["x", "x", "y"]
  exact h.2.2.2 "x" (by decide) rfl

/-- Witness for claim C8: the stable-tie-break filter identity at score 0 on
a concrete candidate list. -/
theorem claim_C8_witness :
    (sortDesc (rank_query exScore ["x", "y"])).filter (fun p => decide (p.2 = 0)) =
      (rank_query exScore ["x", "y"]).filter (fun p => decide (p.2 = 0)) := by
  have h := claim_C8_ranked_list exScore ["x", "y"]
  exact h.2.2.1 0

/-- Witness for claim C9: two consecutive score calls for document "d" on a
fresh PivotedLengthNorm ranker fetch the document vector exactly once. -/
theorem claim_C9_witness :
    (PivotedLengthNormalizationRanker.run rEx plnBDefault
      [(["a"], "d"), (["a"], "d")] RankerState.empty).2 = ["d"] := by
  have h := claim_C9_cache_once rEx "d"
  exact h.1 plnBDefault [(["a"], "d"), (["a"], "d")] (by decide) (by decide)

/-- Witness for claim C10: the queries ["a", "b"] and ["b", "a"] are
permutations of each other and get the same PivotedLengthNorm score. -/
theorem claim_C10_witness :
    (PivotedLengthNormalizationRanker.score rEx plnBDefault RankerState.empty
      ["a", "b"] "d").1 =
      (PivotedLengthNormalizationRanker.score rEx plnBDefault RankerState.empty
        ["b", "a"] "d").1 := by
  have h := claim_C10_perm_invariance rEx RankerState.empty ["a", "b"] ["b", "a"] "d"
    (by decide) (coherent_empty rEx)
  exact h.1 plnBDefault
